import Mathlib

/-!
Verification development for the `hades` decomposers
(`src/hades/decomposers.py`): a shallow embedding of the four
problem-decomposition strategies and proofs of the specified properties.

Modelling conventions:
* Python integers are `Int`; list slicing `xs[o : o + m]` for a
  nonnegative offset `o` is `(xs.drop o).take m`.
* The abstract error names of the design document map onto the concrete
  exceptions of the code: `InvalidConfiguration` is the `ValueError`
  raised at construction, `ExhaustedSource` is the `StopIteration`
  escaping from a non-looping tile iterator.
* The diversity `while` loop of `EnergyImpactDecomposer.iterate` is
  embedded with an explicit fuel argument: the Python loop terminates
  with some value exactly when the fuel-indexed function returns `some`
  for a large enough fuel, and it loops forever exactly when the
  function returns `none` for every fuel.
* `hades/utils.py` is not part of the sources; its four helpers
  (`select_localsearch_adversaries`, `select_random_subgraph`,
  `chimera_tiles`, `bqm_induced_by`) are modelled from the spec, each
  marked `Modelled from the spec:` in its doc comment.
-/

variable {V : Type} {C : Type} [DecidableEq V]

/-- A binary quadratic model: a variable set with linear and quadratic
biases.  Only the structure the decomposers read is embedded (the
vartype tag is irrelevant once the sample is read in the model's
vartype, which the state adapter guarantees). -/
structure BQM (V : Type) where
  vars : Finset V
  lin : V → Int
  quad : V → V → Int

/-- The state threaded through `iterate`: the current sample
(assignment) plus the context written by a decomposer (subproblem and,
for the tiling decomposer, the embedding). -/
structure State (V C : Type) where
  sample : V → Int
  subproblem : Option (BQM V) := none
  embedding : Option (List (V × C)) := none

/-- Symmetric difference of two finite sets; the embedding of Python's
`next_vars ^ prev_vars` on sets. -/
def symmDiffSet (a b : Finset V) : Finset V := (a \ b) ∪ (b \ a)

/-- Boolean success test for an `Except` value. -/
def exceptIsOk : Except ε α → Bool
  | .ok _ => true
  | .error _ => false

/-- Errors surfaced by the decomposers, under the spec's abstract
names: `invalidConfiguration` is the construction-time `ValueError`,
`exhaustedSource` the call-time `StopIteration` of an exhausted
non-looping tile iterator. -/
inductive HadesError where
  | invalidConfiguration
  | exhaustedSource
  deriving DecidableEq

/-- Modelled from the spec: `bqm_induced_by` (in the missing
`hades/utils.py`) builds the induced subproblem over a chosen variable
subset — its variable set is exactly the selected subset, and the
linear bias of each kept variable absorbs the quadratic contributions
of excluded variables fixed at the sample's values. -/
def bqm_induced_by (bqm : BQM V) (selected : Finset V) (sample : V → Int) : BQM V :=
  { vars := selected
    lin := fun v =>
      bqm.lin v + (bqm.vars \ selected).sum (fun u => bqm.quad v u * sample u)
    quad := fun u v =>
      if u ∈ selected ∧ v ∈ selected then bqm.quad u v else 0 }

/-- Modelled from the spec: contract of `select_localsearch_adversaries`
(in the missing `hades/utils.py`) — it returns a ranked, duplicate-free
list of variables of the model (those whose impact score exceeds
`min_gain`; the list may be short or empty).  The ranking itself is a
parameter of the theorems, constrained by this contract. -/
def RankedAdversaries (bqm : BQM V) (ranked : List V) : Prop :=
  ranked.Nodup ∧ ∀ v ∈ ranked, v ∈ bqm.vars

instance (bqm : BQM V) (ranked : List V) : Decidable (RankedAdversaries bqm ranked) :=
  inferInstanceAs (Decidable (ranked.Nodup ∧ ∀ v ∈ ranked, v ∈ bqm.vars))

/-- Modelled from the spec: `select_random_subgraph` (in the missing
`hades/utils.py`) draws `size` distinct variables from the model's
variable set without replacement; the external randomness source is
modelled by the shuffled order `order` in which it visits the model's
variables, of which the first `size` are taken. -/
def select_random_subgraph (order : List V) (size : Nat) : List V :=
  order.take size

/-- Modelled from the spec: contract tying the randomness order to the
model — a draw without replacement ranges over exactly the model's
variable set. -/
def RandomOrderOf (bqm : BQM V) (order : List V) : Prop :=
  order.Nodup ∧ order.toFinset = bqm.vars

instance (bqm : BQM V) (order : List V) : Decidable (RandomOrderOf bqm order) :=
  inferInstanceAs (Decidable (order.Nodup ∧ order.toFinset = bqm.vars))

/-- Modelled from the spec: `chimera_tiles` (in the missing
`hades/utils.py`) computes once, eagerly, the deterministic list of
tiles — each tile a lattice position together with the embedding of the
model's variables belonging to that tile.  The lattice-matching
computation itself is modelled by its output `rawTiles`; failure to
extract any tile (zero tiles found) is an invalid configuration. -/
def chimera_tiles (rawTiles : List (C × List (V × C))) :
    Except HadesError (List (C × List (V × C))) :=
  if rawTiles.isEmpty then .error .invalidConfiguration else .ok rawTiles

/-- Modelled from the spec: contract of the tiles produced by
`chimera_tiles` — every variable of every tile belongs to the model. -/
def TilesInModel (bqm : BQM V) (tiles : List (C × List (V × C))) : Prop :=
  ∀ t ∈ tiles, ∀ p ∈ t.2, p.1 ∈ bqm.vars

instance (bqm : BQM V) (tiles : List (C × List (V × C))) :
    Decidable (TilesInModel bqm tiles) :=
  inferInstanceAs (Decidable (∀ t ∈ tiles, ∀ p ∈ t.2, p.1 ∈ bqm.vars))

/-- `EnergyImpactDecomposer`: selects up to `max_size` variables that
contribute the most to energy increase.  `prev_vars` is the
per-instance mutable set of variables from the previous iteration. -/
structure EnergyImpactDecomposer (V : Type) where
  bqm : BQM V
  max_size : Int
  min_gain : Int
  min_diff : Int
  stride : Int
  prev_vars : Finset V

/-- `EnergyImpactDecomposer.__init__`: raises when `max_size` exceeds
the problem size or `min_diff` is greater than `max_size` or negative;
otherwise stores the configuration with an empty previous set. -/
def energyImpactInit (bqm : BQM V) (max_size min_gain min_diff stride : Int) :
    Except HadesError (EnergyImpactDecomposer V) :=
  if max_size > (bqm.vars.card : Int) then .error .invalidConfiguration
  else if min_diff > max_size ∨ min_diff < 0 then .error .invalidConfiguration
  else .ok ⟨bqm, max_size, min_gain, min_diff, stride, ∅⟩

/-- The diversity-search loop of `EnergyImpactDecomposer.iterate`:
starting from slice index `k` (the Python offset is `k * stride`), keep
re-slicing the ranked list while the symmetric difference with the
previous selection is below `min_diff`.  `fuel` bounds the number of
inspected candidates: the Python loop terminates with value `s` iff
this returns `some s` for every large enough fuel, and loops forever
iff this returns `none` for all fuel. -/
def energyImpactSelect (ranked : List V) (prev : Finset V)
    (maxSize : Nat) (minDiff : Int) (stride : Nat) :
    Nat → Nat → Option (Finset V)
  | 0, _ => none
  | fuel + 1, k =>
      if ((symmDiffSet ((ranked.drop (k * stride)).take maxSize).toFinset prev).card : Int)
          < minDiff then
        energyImpactSelect ranked prev maxSize minDiff stride fuel (k + 1)
      else
        some ((ranked.drop (k * stride)).take maxSize).toFinset

/-- The diversity-search loop never exits, whatever the fuel and the
starting slice index. -/
def energyImpactSelectDiverges (ranked : List V) (prev : Finset V)
    (maxSize : Nat) (minDiff : Int) (stride : Nat) : Prop :=
  ∀ fuel k, energyImpactSelect ranked prev maxSize minDiff stride fuel k = none

/-- `EnergyImpactDecomposer.iterate`: run the diversity loop over the
ranked adversaries, record the selection as the new previous set, and
write the induced subproblem into the state.  (Python's slice offsets
stay nonnegative, so `stride` enters the loop as a natural number.) -/
def energyImpactIterate (d : EnergyImpactDecomposer V) (ranked : List V)
    (fuel : Nat) (st : State V C) :
    Option (EnergyImpactDecomposer V × State V C) :=
  match energyImpactSelect ranked d.prev_vars d.max_size.toNat d.min_diff
      d.stride.toNat fuel 0 with
  | none => none
  | some nextVars =>
      some ({ d with prev_vars := nextVars },
            { st with subproblem := some (bqm_induced_by d.bqm nextVars st.sample) })

/-- `RandomSubproblemDecomposer`: selects a random subproblem of size
`size`. -/
structure RandomSubproblemDecomposer (V : Type) where
  bqm : BQM V
  size : Int

/-- `RandomSubproblemDecomposer.__init__`: raises when `size` exceeds
the problem size. -/
def randomSubproblemInit (bqm : BQM V) (size : Int) :
    Except HadesError (RandomSubproblemDecomposer V) :=
  if size > (bqm.vars.card : Int) then .error .invalidConfiguration
  else .ok ⟨bqm, size⟩

/-- `RandomSubproblemDecomposer.iterate`: select a random subgraph and
write the induced subproblem into the state. -/
def randomSubproblemIterate (d : RandomSubproblemDecomposer V)
    (order : List V) (st : State V C) : State V C :=
  { st with
      subproblem :=
        some (bqm_induced_by d.bqm
          (select_random_subgraph order d.size.toNat).toFinset st.sample) }

/-- `IdentityDecomposer`: copies problem to subproblem. -/
structure IdentityDecomposer (V : Type) where
  bqm : BQM V

/-- `IdentityDecomposer.iterate`: writes the whole model, unmodified,
as the subproblem. -/
def identityIterate (d : IdentityDecomposer V) (st : State V C) : State V C :=
  { st with subproblem := some d.bqm }

/-- `TilingChimeraDecomposer`: returns sequential tile slices of the
initial BQM.  The Python `iter`/`cycle` over the tile dict's items is
embedded as the precomputed tile list plus an explicit cursor. -/
structure TilingChimeraDecomposer (V C : Type) where
  bqm : BQM V
  size : Nat × Nat × Nat
  tiles : List (C × List (V × C))
  loop : Bool
  cursor : Nat

/-- `TilingChimeraDecomposer.__init__`: eagerly computes the tiles
(propagating the zero-tiles failure) and starts the cursor at the
first tile. -/
def tilingInit (bqm : BQM V) (size : Nat × Nat × Nat) (loop : Bool)
    (rawTiles : List (C × List (V × C))) :
    Except HadesError (TilingChimeraDecomposer V C) :=
  match chimera_tiles rawTiles with
  | .error e => .error e
  | .ok tiles => .ok ⟨bqm, size, tiles, loop, 0⟩

/-- One `next(self.blocks)`: without `loop`, the cursor walks the tile
list once and then exhausts; with `loop`, `cycle` wraps the cursor
modulo the tile count (and a cycle over zero tiles exhausts at once,
since `cursor % 0 = cursor`). -/
def nextBlock (tiles : List (C × List (V × C))) (loop : Bool) (cursor : Nat) :
    Option (C × List (V × C)) :=
  if loop then tiles[cursor % tiles.length]? else tiles[cursor]?

/-- `TilingChimeraDecomposer.iterate`: take the next block, advance the
cursor, and write the induced subproblem of the block's variables plus
the block's embedding into the state. -/
def tilingIterate (d : TilingChimeraDecomposer V C) (st : State V C) :
    Except HadesError (TilingChimeraDecomposer V C × State V C) :=
  match nextBlock d.tiles d.loop d.cursor with
  | none => .error .exhaustedSource
  | some block =>
      .ok ({ d with cursor := d.cursor + 1 },
           { st with
               subproblem :=
                 some (bqm_induced_by d.bqm (block.2.map Prod.fst).toFinset st.sample),
               embedding := some block.2 })

/-- `n` consecutive `iterate` calls on a tiling decomposer, threading
decomposer and state, short-circuiting on the first error. -/
def tilingRun (d : TilingChimeraDecomposer V C) (st : State V C) :
    Nat → Except HadesError (TilingChimeraDecomposer V C × State V C)
  | 0 => .ok (d, st)
  | n + 1 =>
      match tilingRun d st n with
      | .error e => .error e
      | .ok (dn, stn) => tilingIterate dn stn

/-! ### Concrete instances used to exercise the theorems -/

/-- A concrete two-variable model with zero biases. -/
def bqmA : BQM Nat :=
  { vars := {0, 1}, lin := fun _ => 0, quad := fun _ _ => 0 }

/-- A concrete state whose sample assigns 0 everywhere. -/
def stA : State Nat Nat :=
  { sample := fun _ => 0, subproblem := none, embedding := none }

/-- A second concrete state with a different sample. -/
def stB : State Nat Nat :=
  { sample := fun _ => 1, subproblem := none, embedding := none }

/-- A concrete energy-impact decomposer over `bqmA` with
`max_size = 1`, `min_gain = 0`, `min_diff = 1`, `stride = 1`. -/
def eidA : EnergyImpactDecomposer Nat :=
  ⟨bqmA, 1, 0, 1, 1, ∅⟩

/-- A concrete random decomposer over `bqmA` with `size = 1`. -/
def rsdA : RandomSubproblemDecomposer Nat :=
  ⟨bqmA, 1⟩

/-- A concrete identity decomposer over `bqmA`. -/
def idA : IdentityDecomposer Nat :=
  ⟨bqmA⟩

/-- A concrete single-tile list over `bqmA`: one tile at lattice
position 0 embedding variable 0 at local coordinate 0. -/
def tilesA : List (Nat × List (Nat × Nat)) :=
  [(0, [(0, 0)])]

/-- A concrete non-looping tiling decomposer over `bqmA` and `tilesA`. -/
def tcdA : TilingChimeraDecomposer Nat Nat :=
  ⟨bqmA, (1, 1, 1), tilesA, false, 0⟩

/-- A concrete looping tiling decomposer over `bqmA` and `tilesA`. -/
def tcdL : TilingChimeraDecomposer Nat Nat :=
  ⟨bqmA, (1, 1, 1), tilesA, true, 0⟩

/-! ### Helper lemmas about the diversity-search loop -/

/-- If the search exits with a selection, that selection satisfies the
loop's exit condition (symmetric difference at least `min_diff`) and is
a slice of the ranked list. -/
theorem energyImpactSelect_spec (ranked : List V) (prev : Finset V)
    (maxSize : Nat) (minDiff : Int) (stride : Nat) :
    ∀ fuel k x, energyImpactSelect ranked prev maxSize minDiff stride fuel k = some x →
      minDiff ≤ ((symmDiffSet x prev).card : Int) ∧ x ⊆ ranked.toFinset := by
  intro fuel
  induction fuel with
  | zero => intro k x h; exact absurd h (by simp [energyImpactSelect])
  | succ n ih =>
      intro k x h
      rw [energyImpactSelect] at h
      by_cases hc :
          ((symmDiffSet ((ranked.drop (k * stride)).take maxSize).toFinset prev).card : Int)
            < minDiff
      · rw [if_pos hc] at h
        exact ih (k + 1) x h
      · rw [if_neg hc] at h
        obtain rfl : ((ranked.drop (k * stride)).take maxSize).toFinset = x :=
          Option.some.inj h
        refine ⟨not_lt.mp hc, fun a ha => ?_⟩
        rw [List.mem_toFinset] at ha ⊢
        exact List.mem_of_mem_drop (List.mem_of_mem_take ha)

/-- If every reachable slice stays below `min_diff`, the loop returns
`none` for every fuel: it never terminates. -/
theorem energyImpactSelect_diverges_of_forall (ranked : List V) (prev : Finset V)
    (maxSize : Nat) (minDiff : Int) (stride : Nat)
    (h : ∀ k,
      ((symmDiffSet ((ranked.drop (k * stride)).take maxSize).toFinset prev).card : Int)
        < minDiff) :
    energyImpactSelectDiverges ranked prev maxSize minDiff stride := by
  intro fuel
  induction fuel with
  | zero => intro k; simp [energyImpactSelect]
  | succ n ih => intro k; rw [energyImpactSelect, if_pos (h k)]; exact ih (k + 1)

/-! ### Helper lemmas about tiling runs -/

/-- A run of tiling iterations never produces a configuration error:
the only error `iterate` can raise is source exhaustion. -/
theorem tilingRun_ne_invalidConfiguration (d : TilingChimeraDecomposer V C)
    (st : State V C) :
    ∀ n, tilingRun d st n ≠ .error .invalidConfiguration := by
  intro n
  induction n with
  | zero => simp [tilingRun]
  | succ n ih =>
      rw [tilingRun]
      cases hrun : tilingRun d st n with
      | error e =>
          intro hcontra
          exact ih (hrun.trans hcontra)
      | ok p =>
          obtain ⟨dn, stn⟩ := p
          simp only [tilingIterate]
          cases nextBlock dn.tiles dn.loop dn.cursor with
          | none => simp
          | some block => simp

/-- Without `loop`, while the cursor stays within the tile list every
call succeeds: after `n` calls the cursor has advanced by `n` and the
state carries the context of the last call. -/
theorem tilingRun_noLoop (d : TilingChimeraDecomposer V C) (st : State V C)
    (hl : d.loop = false) :
    ∀ n, d.cursor + n ≤ d.tiles.length →
      ∃ sp em, tilingRun d st n =
        .ok ({ d with cursor := d.cursor + n },
             { st with subproblem := sp, embedding := em }) := by
  intro n
  induction n with
  | zero =>
      intro _
      exact ⟨st.subproblem, st.embedding, rfl⟩
  | succ n ih =>
      intro hle
      have hlt : d.cursor + n < d.tiles.length := by omega
      obtain ⟨sp, em, hrun⟩ := ih (Nat.le_of_lt hlt)
      have hblock : nextBlock d.tiles d.loop (d.cursor + n) =
          some (d.tiles.get ⟨d.cursor + n, hlt⟩) := by
        rw [nextBlock, hl, if_neg (by simp)]
        exact List.getElem?_eq_getElem hlt
      rw [tilingRun, hrun]
      simp only [tilingIterate, hblock]
      exact ⟨_, _, rfl⟩

/-- With `loop`, a nonempty tile list makes every call succeed: after
`n` calls the cursor has advanced by `n`. -/
theorem tilingRun_loop (d : TilingChimeraDecomposer V C) (st : State V C)
    (hl : d.loop = true) (hL : 0 < d.tiles.length) :
    ∀ n, ∃ sp em, tilingRun d st n =
      .ok ({ d with cursor := d.cursor + n },
           { st with subproblem := sp, embedding := em }) := by
  intro n
  induction n with
  | zero => exact ⟨st.subproblem, st.embedding, rfl⟩
  | succ n ih =>
      obtain ⟨sp, em, hrun⟩ := ih
      have hlt : (d.cursor + n) % d.tiles.length < d.tiles.length :=
        Nat.mod_lt _ hL
      have hblock : nextBlock d.tiles d.loop (d.cursor + n) =
          some (d.tiles.get ⟨(d.cursor + n) % d.tiles.length, hlt⟩) := by
        rw [nextBlock, hl, if_pos rfl]
        exact List.getElem?_eq_getElem hlt
      rw [tilingRun, hrun]
      simp only [tilingIterate, hblock]
      exact ⟨_, _, rfl⟩

/-- With `loop` and a nonempty tile list, the `(n+1)`-st call selects
tile number `(cursor + n) mod tile-count` and writes its induced
subproblem and embedding into the state. -/
theorem tilingRun_loop_last (d : TilingChimeraDecomposer V C) (st : State V C)
    (hl : d.loop = true) (hL : 0 < d.tiles.length)
    (n : Nat) (t : C × List (V × C))
    (ht : d.tiles[(d.cursor + n) % d.tiles.length]? = some t) :
    tilingRun d st (n + 1) =
      .ok ({ d with cursor := d.cursor + (n + 1) },
           { st with
               subproblem :=
                 some (bqm_induced_by d.bqm (t.2.map Prod.fst).toFinset st.sample),
               embedding := some t.2 }) := by
  obtain ⟨sp, em, hrun⟩ := tilingRun_loop d st hl hL n
  have hblock : nextBlock d.tiles d.loop (d.cursor + n) = some t := by
    rw [nextBlock, hl, if_pos rfl]
    exact ht
  rw [tilingRun, hrun]
  simp only [tilingIterate, hblock]
  rfl

/-- A successful tiling construction fixes the decomposer's shape: the
stored tiles are the computed ones, the cursor starts at 0, and the
tile list is nonempty. -/
theorem tilingInit_ok (bqm : BQM V) (size : Nat × Nat × Nat) (loop : Bool)
    (rawTiles : List (C × List (V × C))) (d : TilingChimeraDecomposer V C)
    (h : tilingInit bqm size loop rawTiles = .ok d) :
    d = ⟨bqm, size, rawTiles, loop, 0⟩ ∧ rawTiles ≠ [] := by
  rw [tilingInit] at h
  by_cases he : rawTiles.isEmpty
  · rw [chimera_tiles, if_pos he] at h
    exact absurd h (by simp)
  · rw [chimera_tiles, if_neg he] at h
    refine ⟨(Except.ok.inj h).symm, ?_⟩
    simpa [List.isEmpty_iff] using he

/-! ### Claim theorems -/

/-- Claim C4: `EnergyImpactDecomposer` construction raises
`InvalidConfiguration` if and only if `max_size` exceeds the model's
variable count, or `min_diff` is negative, or `min_diff` exceeds
`max_size`; for any parameters passing these checks construction
succeeds. -/
theorem c4_energy_impact_init_invalid_iff (bqm : BQM V)
    (max_size min_gain min_diff stride : Int) :
    (energyImpactInit bqm max_size min_gain min_diff stride
        = .error .invalidConfiguration
      ↔ (max_size > (bqm.vars.card : Int) ∨ min_diff < 0 ∨ min_diff > max_size)) ∧
    (exceptIsOk (energyImpactInit bqm max_size min_gain min_diff stride) = true
      ↔ ¬(max_size > (bqm.vars.card : Int) ∨ min_diff < 0 ∨ min_diff > max_size)) := by
  rw [energyImpactInit]
  split_ifs with h1 h2 <;> simp [exceptIsOk] <;> omega

/-- Claim C8: `IdentityDecomposer.select` returns the entire model
unmodified as the subproblem, so the returned subproblem's variable set
equals the full model's variable set, for every assignment. -/
theorem c8_identity_returns_full_model (d : IdentityDecomposer V) (st : State V C) :
    (identityIterate d st).subproblem = some d.bqm ∧
    Option.map BQM.vars (identityIterate d st).subproblem = some d.bqm.vars :=
  ⟨rfl, rfl⟩

/-- Claim C10: `EnergyImpactDecomposer` construction never validates
`stride`: whenever the `max_size` and `min_diff` checks pass,
construction succeeds for every integer stride, including zero and
negative values. -/
theorem c10_stride_never_validated (bqm : BQM V) (max_size min_gain min_diff : Int)
    (h1 : ¬ max_size > (bqm.vars.card : Int))
    (h2 : ¬ (min_diff > max_size ∨ min_diff < 0)) (stride : Int) :
    exceptIsOk (energyImpactInit bqm max_size min_gain min_diff stride) = true := by
  rw [energyImpactInit, if_neg h1, if_neg h2]
  rfl

/-- Witness for C10: over the concrete two-variable model, with
`max_size = 1` and `min_diff = 1` passing their checks, construction
succeeds both with a negative stride and with a zero stride. -/
theorem c10_stride_never_validated_witness :
    exceptIsOk (energyImpactInit bqmA 1 0 1 (-7)) = true ∧
    exceptIsOk (energyImpactInit bqmA 1 0 1 0) = true :=
  ⟨c10_stride_never_validated bqmA 1 0 1 (by decide) (by decide) (-7),
   c10_stride_never_validated bqmA 1 0 1 (by decide) (by decide) 0⟩

/-- Claim C1: the diversity-search loop of
`EnergyImpactDecomposer.iterate` does NOT stop when the ranked list is
exhausted — on an empty ranked adversary list (reachable whenever
`min_gain` filters out every variable) with `max_size = 1`,
`min_diff = 1`, `stride = 1` and the initial empty previous selection,
every slice is empty, the symmetric difference stays at cardinality 0,
and the loop returns nothing for every fuel bound: it loops forever,
contradicting the claimed termination. -/
theorem c1_diversity_loop_diverges_on_exhausted_ranking :
    energyImpactSelectDiverges ([] : List Nat) ∅ 1 1 1 := by
  apply energyImpactSelect_diverges_of_forall
  intro k
  simp [symmDiffSet]

/-- Counterexample to claim C3 as stated: with ranked list `[0]`,
`max_size = 2`, `min_diff = 2`, `stride = 1` and empty previous
selection (the first call on a model whose ranking came up short), the
best attainable slice has symmetric difference of cardinality 1 < 2 and
every later slice is empty, so the call never terminates — it does not
return a best-attainable selection. -/
theorem c3_short_ranking_call_never_returns :
    energyImpactSelectDiverges [(0 : Nat)] ∅ 2 2 1 := by
  apply energyImpactSelect_diverges_of_forall
  intro k
  match k with
  | 0 => decide
  | k + 1 =>
      have hlen : [(0 : Nat)].length ≤ (k + 1) * 1 := by
        simp
      have hdrop : ([(0 : Nat)].drop ((k + 1) * 1)) = [] :=
        List.drop_eq_nil_of_le hlen
      rw [hdrop]
      simp [symmDiffSet]

/-- Claim C3 (amended): whenever a `select` call of
`EnergyImpactDecomposer` terminates, the selection it records has
symmetric difference of cardinality at least `min_diff` from the
previous selection, the final selected set is recorded as the previous
set for the next call, and the returned subproblem is induced by
exactly that recorded set; when the ranked list is too short to satisfy
`min_diff` the call does not terminate at all (see the
counterexample). -/
theorem c3_terminating_select_meets_min_diff (d : EnergyImpactDecomposer V)
    (ranked : List V) (fuel : Nat) (st : State V C)
    (d2 : EnergyImpactDecomposer V) (st2 : State V C)
    (h : energyImpactIterate d ranked fuel st = some (d2, st2)) :
    d.min_diff ≤ ((symmDiffSet d2.prev_vars d.prev_vars).card : Int) ∧
    st2.subproblem = some (bqm_induced_by d.bqm d2.prev_vars st.sample) := by
  rw [energyImpactIterate] at h
  cases hsel : energyImpactSelect ranked d.prev_vars d.max_size.toNat d.min_diff
      d.stride.toNat fuel 0 with
  | none => rw [hsel] at h; exact absurd h (by simp)
  | some s =>
      rw [hsel] at h
      have hpair := Option.some.inj h
      have hd2 : ({ d with prev_vars := s } : EnergyImpactDecomposer V) = d2 :=
        congrArg Prod.fst hpair
      have hst2 : ({ st with
          subproblem := some (bqm_induced_by d.bqm s st.sample) } : State V C) = st2 :=
        congrArg Prod.snd hpair
      subst hd2
      subst hst2
      exact ⟨(energyImpactSelect_spec ranked d.prev_vars d.max_size.toNat d.min_diff
        d.stride.toNat fuel 0 s hsel).1, rfl⟩

/-- Witness for the amended C3: on the concrete decomposer `eidA`
(`min_diff = 1`, empty previous set) with ranked list `[0, 1]`, the
call terminates selecting `{0}`, whose symmetric difference from the
empty previous set has cardinality 1 ≥ `min_diff`, and the subproblem
is induced by the recorded set. -/
theorem c3_terminating_select_meets_min_diff_witness :
    (1 : Int) ≤ ((symmDiffSet (List.toFinset [0]) (∅ : Finset Nat)).card : Int) ∧
    (some (bqm_induced_by bqmA (List.toFinset [0]) stA.sample) : Option (BQM Nat))
      = some (bqm_induced_by bqmA (List.toFinset [0]) stA.sample) :=
  c3_terminating_select_meets_min_diff eidA [0, 1] 1 stA
    { eidA with prev_vars := List.toFinset [0] }
    { stA with subproblem := some (bqm_induced_by bqmA (List.toFinset [0]) stA.sample) }
    rfl

/-- Claim C2: a model yielding zero tiles for the declared lattice
shape is rejected at construction with `InvalidConfiguration`; and a
configuration error never surfaces at call time — any run of `select`
calls of a constructed tiling decomposer never produces
`InvalidConfiguration` (the only call-time error is source
exhaustion). -/
theorem c2_tiling_zero_tiles_rejected_at_construction (bqm : BQM V)
    (size : Nat × Nat × Nat) (loop : Bool)
    (rawTiles : List (C × List (V × C))) (st : State V C) (n : Nat) :
    (rawTiles = [] →
      tilingInit bqm size loop rawTiles = .error .invalidConfiguration) ∧
    (∀ d, tilingInit bqm size loop rawTiles = .ok d →
      tilingRun d st n ≠ .error .invalidConfiguration) := by
  constructor
  · intro hraw
    subst hraw
    rfl
  · intro d _
    exact tilingRun_ne_invalidConfiguration d st n

/-- Witness for C2: over the concrete model, an empty tile list makes
construction fail with `InvalidConfiguration`, while two calls on the
constructed single-tile decomposer never produce
`InvalidConfiguration`. -/
theorem c2_tiling_zero_tiles_rejected_at_construction_witness :
    tilingInit bqmA (1, 1, 1) false ([] : List (Nat × List (Nat × Nat)))
      = .error .invalidConfiguration ∧
    tilingRun tcdA stA 2 ≠ .error .invalidConfiguration :=
  ⟨(c2_tiling_zero_tiles_rejected_at_construction bqmA (1, 1, 1) false [] stA 2).1 rfl,
   (c2_tiling_zero_tiles_rejected_at_construction bqmA (1, 1, 1) false tilesA stA 2).2
     tcdA rfl⟩

/-- Claim C5: a tiling decomposer constructed with `loop = False` over
`k` tiles answers the first `k` `select` calls and raises
`ExhaustedSource` on call `k + 1`. -/
theorem c5_noloop_exhausts_after_tiles (bqm : BQM V) (size : Nat × Nat × Nat)
    (rawTiles : List (C × List (V × C))) (d : TilingChimeraDecomposer V C)
    (st : State V C)
    (hinit : tilingInit bqm size false rawTiles = .ok d)
    (n : Nat) (hn : n ≤ rawTiles.length) :
    exceptIsOk (tilingRun d st n) = true ∧
    tilingRun d st (rawTiles.length + 1) = .error .exhaustedSource := by
  obtain ⟨hd, hne⟩ := tilingInit_ok bqm size false rawTiles d hinit
  subst hd
  constructor
  · obtain ⟨sp, em, hrun⟩ :=
      tilingRun_noLoop ⟨bqm, size, rawTiles, false, 0⟩ st rfl n (by simpa using hn)
    rw [hrun]
    rfl
  · obtain ⟨sp, em, hrun⟩ :=
      tilingRun_noLoop ⟨bqm, size, rawTiles, false, 0⟩ st rfl rawTiles.length
        (by simp)
    rw [tilingRun, hrun]
    have hnone : nextBlock rawTiles false (0 + rawTiles.length) = none := by
      rw [nextBlock, if_neg (by simp)]
      exact List.getElem?_eq_none (by omega)
    simp only [tilingIterate, hnone]

/-- Witness for C5: the concrete non-looping single-tile decomposer
answers its first call and raises `ExhaustedSource` on the second. -/
theorem c5_noloop_exhausts_after_tiles_witness :
    exceptIsOk (tilingRun tcdA stA 1) = true ∧
    tilingRun tcdA stA (tilesA.length + 1) = .error .exhaustedSource :=
  c5_noloop_exhausts_after_tiles bqmA (1, 1, 1) tilesA tcdA stA rfl 1 (by decide)

/-- Claim C6: a tiling decomposer constructed with `loop = True` visits
tiles in the fixed traversal order with wrap-around: for every `n`, the
`(n+1)`-st `select` call succeeds and selects tile number
`n mod tile-count`, writing that tile's induced subproblem and
embedding; in particular call number `tile-count + 1` (taking
`n = tile-count`) reproduces the first tile's variable set. -/
theorem c6_loop_wraps_to_first_tile (bqm : BQM V) (size : Nat × Nat × Nat)
    (rawTiles : List (C × List (V × C))) (d : TilingChimeraDecomposer V C)
    (st : State V C)
    (hinit : tilingInit bqm size true rawTiles = .ok d)
    (n : Nat) (t : C × List (V × C))
    (ht : rawTiles[n % rawTiles.length]? = some t) :
    tilingRun d st (n + 1) =
      .ok ({ d with cursor := n + 1 },
           { st with
               subproblem :=
                 some (bqm_induced_by bqm (t.2.map Prod.fst).toFinset st.sample),
               embedding := some t.2 }) := by
  obtain ⟨hd, hne⟩ := tilingInit_ok bqm size true rawTiles d hinit
  subst hd
  have hL : 0 < rawTiles.length := List.length_pos.mpr hne
  have hlast := tilingRun_loop_last ⟨bqm, size, rawTiles, true, 0⟩ st rfl
    (by simpa using hL) n t (by simpa using ht)
  simpa using hlast

/-- Witness for C6: the concrete looping single-tile decomposer, called
`tile-count + 1 = 2` times, wraps and reproduces the first tile's
subproblem and embedding. -/
theorem c6_loop_wraps_to_first_tile_witness :
    tilingRun tcdL stA (1 + 1) =
      .ok ({ tcdL with cursor := 1 + 1 },
           { stA with
               subproblem :=
                 some (bqm_induced_by bqmA
                   (([((0 : Nat), (0 : Nat))]).map Prod.fst).toFinset stA.sample),
               embedding := some [((0 : Nat), (0 : Nat))] }) :=
  c6_loop_wraps_to_first_tile bqmA (1, 1, 1) tilesA tcdL stA rfl 1 (0, [(0, 0)])
    (by decide)

/-- Claim C7: with a valid `size`, a `RandomSubproblemDecomposer`
`select` call returns the subproblem induced by exactly `size` distinct
variables (the selected Finset has cardinality `size`), and the choice
of variables is independent of the current assignment's values (two
calls over different states select the same variable set). -/
theorem c7_random_select_exact_size (d : RandomSubproblemDecomposer V)
    (order : List V) (st st2 : State V C)
    (hord : RandomOrderOf d.bqm order)
    (hsz : 0 ≤ d.size) (hle : d.size ≤ (d.bqm.vars.card : Int)) :
    (randomSubproblemIterate d order st).subproblem
      = some (bqm_induced_by d.bqm
          (select_random_subgraph order d.size.toNat).toFinset st.sample) ∧
    ((select_random_subgraph order d.size.toNat).toFinset.card : Int) = d.size ∧
    Option.map BQM.vars (randomSubproblemIterate d order st).subproblem
      = Option.map BQM.vars (randomSubproblemIterate d order st2).subproblem := by
  obtain ⟨hnd, htf⟩ := hord
  refine ⟨rfl, ?_, rfl⟩
  have hndt : (order.take d.size.toNat).Nodup :=
    hnd.sublist (List.take_sublist d.size.toNat order)
  have hlen : d.bqm.vars.card = order.length := by
    rw [← htf, List.toFinset_card_of_nodup hnd]
  have hsize_le : d.size.toNat ≤ order.length := by
    rw [← hlen]
    exact Int.toNat_le.mpr hle
  have h1 : (select_random_subgraph order d.size.toNat).toFinset.card = d.size.toNat := by
    rw [select_random_subgraph, List.toFinset_card_of_nodup hndt, List.length_take]
    exact Nat.min_eq_left hsize_le
  rw [h1]
  exact Int.toNat_of_nonneg hsz

/-- Witness for C7: the concrete random decomposer of size 1 over the
two-variable model, with draw order `[0, 1]`, selects exactly one
variable, and the selected set is the same under two different
assignments. -/
theorem c7_random_select_exact_size_witness :
    (randomSubproblemIterate rsdA [0, 1] stA).subproblem
      = some (bqm_induced_by bqmA
          (select_random_subgraph [0, 1] (1 : Int).toNat).toFinset stA.sample) ∧
    ((select_random_subgraph [0, 1] (1 : Int).toNat).toFinset.card : Int) = 1 ∧
    Option.map BQM.vars (randomSubproblemIterate rsdA [0, 1] stA).subproblem
      = Option.map BQM.vars (randomSubproblemIterate rsdA [0, 1] stB).subproblem :=
  c7_random_select_exact_size rsdA [0, 1] stA stB (by decide) (by decide) (by decide)

/-- Claim C9: for every decomposer variant, every variable of the
subproblem a `select` call returns belongs to the original model's
variable set — for the energy-impact decomposer under the ranked
adversaries contract, for the random decomposer under the
draw-from-the-model contract, for the tiling decomposer under the
tiles-in-model contract, and unconditionally for the identity
decomposer. -/
theorem c9_subproblem_vars_subset_model :
    (∀ (d : EnergyImpactDecomposer V) (ranked : List V) (fuel : Nat)
       (st : State V C) (d2 : EnergyImpactDecomposer V) (st2 : State V C)
       (sub : BQM V),
       RankedAdversaries d.bqm ranked →
       energyImpactIterate d ranked fuel st = some (d2, st2) →
       st2.subproblem = some sub → sub.vars ⊆ d.bqm.vars) ∧
    (∀ (d : RandomSubproblemDecomposer V) (order : List V) (st : State V C)
       (sub : BQM V),
       (∀ v ∈ order, v ∈ d.bqm.vars) →
       (randomSubproblemIterate d order st).subproblem = some sub →
       sub.vars ⊆ d.bqm.vars) ∧
    (∀ (d : TilingChimeraDecomposer V C) (st : State V C)
       (d2 : TilingChimeraDecomposer V C) (st2 : State V C) (sub : BQM V),
       TilesInModel d.bqm d.tiles →
       tilingIterate d st = .ok (d2, st2) →
       st2.subproblem = some sub → sub.vars ⊆ d.bqm.vars) ∧
    (∀ (d : IdentityDecomposer V) (st : State V C) (sub : BQM V),
       (identityIterate d st).subproblem = some sub → sub.vars ⊆ d.bqm.vars) := by
  refine ⟨?_, ?_, ?_, ?_⟩
  · intro d ranked fuel st d2 st2 sub hrank hit hsub
    rw [energyImpactIterate] at hit
    cases hsel : energyImpactSelect ranked d.prev_vars d.max_size.toNat d.min_diff
        d.stride.toNat fuel 0 with
    | none => rw [hsel] at hit; exact absurd hit (by simp)
    | some s =>
        rw [hsel] at hit
        have hst2 : ({ st with
            subproblem := some (bqm_induced_by d.bqm s st.sample) } : State V C) = st2 :=
          congrArg Prod.snd (Option.some.inj hit)
        subst hst2
        obtain rfl : bqm_induced_by d.bqm s st.sample = sub := Option.some.inj hsub
        intro v hv
        have hvs : v ∈ s := hv
        have hsub_ranked := (energyImpactSelect_spec ranked d.prev_vars d.max_size.toNat
          d.min_diff d.stride.toNat fuel 0 s hsel).2
        exact hrank.2 v (List.mem_toFinset.mp (hsub_ranked hvs))
  · intro d order st sub hmem hsub
    obtain rfl :
        bqm_induced_by d.bqm (select_random_subgraph order d.size.toNat).toFinset
          st.sample = sub := Option.some.inj hsub
    intro v hv
    have hvt : v ∈ (order.take d.size.toNat).toFinset := hv
    exact hmem v (List.mem_of_mem_take (List.mem_toFinset.mp hvt))
  · intro d st d2 st2 sub htiles hit hsub
    rw [tilingIterate] at hit
    cases hnb : nextBlock d.tiles d.loop d.cursor with
    | none => rw [hnb] at hit; exact absurd hit (by simp)
    | some block =>
        rw [hnb] at hit
        have hst2 : ({ st with
            subproblem :=
              some (bqm_induced_by d.bqm (block.2.map Prod.fst).toFinset st.sample),
            embedding := some block.2 } : State V C) = st2 :=
          congrArg Prod.snd (Except.ok.inj hit)
        subst hst2
        obtain rfl :
            bqm_induced_by d.bqm (block.2.map Prod.fst).toFinset st.sample = sub :=
          Option.some.inj hsub
        have hblock_mem : block ∈ d.tiles := by
          rw [nextBlock] at hnb
          by_cases hloop : d.loop = true
          · rw [if_pos hloop] at hnb
            obtain ⟨hi, hget⟩ := List.getElem?_eq_some.mp hnb
            exact hget ▸ List.getElem_mem hi
          · rw [if_neg hloop] at hnb
            obtain ⟨hi, hget⟩ := List.getElem?_eq_some.mp hnb
            exact hget ▸ List.getElem_mem hi
        intro v hv
        have hvt : v ∈ (block.2.map Prod.fst).toFinset := hv
        obtain ⟨p, hp, hpv⟩ := List.mem_map.mp (List.mem_toFinset.mp hvt)
        exact hpv ▸ htiles block hblock_mem p hp
  · intro d st sub hsub
    obtain rfl : d.bqm = sub := Option.some.inj hsub
    exact fun v hv => hv

/-- Witness for C9: each of the four concrete decomposers over the
two-variable model returns a subproblem whose variables all belong to
the model. -/
theorem c9_subproblem_vars_subset_model_witness :
    (bqm_induced_by bqmA (List.toFinset [0]) stA.sample).vars ⊆ bqmA.vars ∧
    (bqm_induced_by bqmA
      (select_random_subgraph [0, 1] (1 : Int).toNat).toFinset stA.sample).vars
        ⊆ bqmA.vars ∧
    (bqm_induced_by bqmA (([((0 : Nat), (0 : Nat))]).map Prod.fst).toFinset
      stA.sample).vars ⊆ bqmA.vars ∧
    bqmA.vars ⊆ bqmA.vars :=
  ⟨(c9_subproblem_vars_subset_model.1) eidA [0, 1] 1 stA
      { eidA with prev_vars := List.toFinset [0] }
      { stA with subproblem := some (bqm_induced_by bqmA (List.toFinset [0]) stA.sample) }
      (bqm_induced_by bqmA (List.toFinset [0]) stA.sample)
      (by decide) rfl rfl,
   (c9_subproblem_vars_subset_model.2.1) rsdA [0, 1] stA
      (bqm_induced_by bqmA
        (select_random_subgraph [0, 1] (1 : Int).toNat).toFinset stA.sample)
      (by decide) rfl,
   (c9_subproblem_vars_subset_model.2.2.1) tcdA stA
      { tcdA with cursor := 1 }
      { stA with
          subproblem :=
            some (bqm_induced_by bqmA (([((0 : Nat), (0 : Nat))]).map Prod.fst).toFinset
              stA.sample),
          embedding := some [((0 : Nat), (0 : Nat))] }
      (bqm_induced_by bqmA (([((0 : Nat), (0 : Nat))]).map Prod.fst).toFinset stA.sample)
      (by decide) rfl rfl,
   (c9_subproblem_vars_subset_model.2.2.2) idA stA bqmA rfl⟩
